import Mathlib

/-!
Verification of the stale-pull-request bot (`main.go`).

The development shallowly embeds the program's core logic:

* the staleness classification implicit in `stalePullRequests` (main.go:124-134)
  and the dispatch in `main` (main.go:364-388);
* the vacation-window test and the in-place vacation removal loop of
  `listMembers` (main.go:183-202), with Go slice/`append`/`range` semantics
  made explicit;
* the memoisation protocol of `listMembers` (main.go:155-206), with the
  network fetch supplied as an explicit outcome;
* the round-robin ring draw of `nextRandomMember` (main.go:218-243) and the
  author/bot exclusion loop of `main` (main.go:367-373);
* the pagination loop of `stalePullRequests` (main.go:87-122), with page
  responses supplied as an explicit oracle sequence;
* the error discipline of `assignUser` (main.go:303-336).

Machine integers (`int64`, `time.Time`, `time.Duration`) are embedded as
`Int` (no arithmetic here can overflow in the program's domain); Go's
two-valued slices/pointers (`nil` vs present) are embedded as `Option`;
fallible calls return `Except`; a Go runtime panic is an explicit outcome
constructor.
-/

/-- Go constant `botName` (main.go:38): the bot's own login, excluded from
assignment. -/
def botName : String := "optiopay-helper"

/-- Go struct `User` (main.go:40-43): numeric identity plus login handle. -/
structure User where
  id : Int
  login : String
deriving DecidableEq

/-- Go struct `Issue` (main.go:45-57), restricted to the fields the core
logic reads.  `isPR` embeds the `PullRequest != nil` test of
`Issue.isPullRequest` (main.go:71-73); `createdAt` is seconds since epoch;
`user` is the author and `assignee` the current assignee (`nil` embedded as
`none`). -/
structure Issue where
  id : Int
  number : Int
  createdAt : Int
  user : Option User
  assignee : Option User
  isPR : Bool
deriving DecidableEq

/-- Classification outcome of one fetched item (spec section 4.2). -/
inductive Classification where
  | NeedsAssignment
  | NeedsReminder
  | Skip
deriving DecidableEq

/-- Staleness classification of one item, combining the filter of
`stalePullRequests` (main.go:124-134: skip non-PRs, skip items with
`CreatedAt.Add(staleTime).After(now)`) with the dispatch of `main`
(main.go:364-388: no assignee means assign; otherwise remind exactly when
the Slack URL flag is set and `CreatedAt.Add(oldTime).Before(now)`).
`assignAfter` is the `-stale` duration, `remindAfter` the `-old` duration,
both in seconds; the two `time.Now()` calls of the program are taken as the
single instant `now`. -/
def classify (i : Issue) (now assignAfter remindAfter : Int)
    (slackConfigured : Bool) : Classification :=
  if i.isPR = false then .Skip
  else if now < i.createdAt + assignAfter then .Skip
  else if i.assignee = none then .NeedsAssignment
  else if slackConfigured = true ∧ i.createdAt + remindAfter < now then .NeedsReminder
  else .Skip

/-- C1, counterexample: at an age exactly equal to the reminder threshold the
program skips the item, while the claim requires `NeedsReminder` (it asserts
a non-strict comparison).  Here the item is a pull request with an assignee,
`now - createdAt = 10 = remindAfter`, Slack configured, yet the result is
`Skip`. -/
theorem classify_reminder_boundary_strict :
    (Issue.mk 1 1 0 (some (User.mk 9 "alice")) (some (User.mk 8 "bob")) true).isPR = true ∧
    (Issue.mk 1 1 0 (some (User.mk 9 "alice")) (some (User.mk 8 "bob")) true).assignee ≠ none ∧
    (10 : Int) - (Issue.mk 1 1 0 (some (User.mk 9 "alice")) (some (User.mk 8 "bob")) true).createdAt ≥ 10 ∧
    classify (Issue.mk 1 1 0 (some (User.mk 9 "alice")) (some (User.mk 8 "bob")) true) 10 5 10 true
      ≠ Classification.NeedsReminder ∧
    classify (Issue.mk 1 1 0 (some (User.mk 9 "alice")) (some (User.mk 8 "bob")) true) 10 5 10 true
      = Classification.Skip := by
  refine ⟨rfl, by decide, by decide, by decide, by decide⟩

/-- C1, amended: `classify` yields `NeedsAssignment` iff the item is a pull
request with no assignee and `now - createdAt ≥ assignAfter` (non-strict, as
claimed); it yields `NeedsReminder` iff the item is a pull request with an
assignee, the notification channel is configured, `now - createdAt ≥
assignAfter`, and `now - createdAt > remindAfter` (strict); otherwise
`Skip`. -/
theorem classify_characterization (i : Issue) (now a r : Int) (slack : Bool) :
    (classify i now a r slack = Classification.NeedsAssignment ↔
      (i.isPR = true ∧ i.assignee = none ∧ now - i.createdAt ≥ a)) ∧
    (classify i now a r slack = Classification.NeedsReminder ↔
      (i.isPR = true ∧ i.assignee ≠ none ∧ slack = true ∧
        now - i.createdAt ≥ a ∧ now - i.createdAt > r)) ∧
    (classify i now a r slack = Classification.Skip ↔
      ¬(i.isPR = true ∧ i.assignee = none ∧ now - i.createdAt ≥ a) ∧
      ¬(i.isPR = true ∧ i.assignee ≠ none ∧ slack = true ∧
        now - i.createdAt ≥ a ∧ now - i.createdAt > r)) := by
  unfold classify
  cases hPR : i.isPR <;> cases hS : slack <;> cases hA : i.assignee <;>
    split_ifs <;> simp_all <;> omega

/-- Seconds in one day, matching the `24 * time.Hour` extension of the end
date in `listMembers` (main.go:191). -/
def secondsPerDay : Int := 86400

/-- Vacation-window test of `listMembers` (main.go:183-194): `fromSec` and
`toSec` are the midnights (seconds since epoch) produced by parsing the
start and end dates with layout `2006-01-02`; the program extends the end by
24 hours and then tests `now.After(from) && now.Before(to)` (both strict). -/
def onVacationAt (fromSec toSec now : Int) : Bool :=
  let to2 := toSec + secondsPerDay
  decide (fromSec < now) ∧ decide (now < to2)

/-- C5, counterexample: an instant exactly at the start of the start date is
NOT inside the window (Go `now.After(from)` is strict), while the claim says
the window is inclusive of both endpoints.  Window days 0..9, instant = the
first second of day 0. -/
theorem onVacationAt_start_boundary_exclusive :
    onVacationAt 0 (9 * secondsPerDay) 0 = false ∧
    (0 : Int) ≤ 0 ∧ (0 : Int) ≤ 9 * secondsPerDay + secondsPerDay := by
  refine ⟨by decide, by decide, by decide⟩

/-- C5, amended: a member is on vacation exactly when the instant lies
strictly after the first instant of the start date and strictly before the
midnight following the end date — so every instant of the full end day is
inside, but the instant exactly at the start of the start date is not. -/
theorem onVacationAt_iff (f t now : Int) :
    onVacationAt f t now = true ↔ (f < now ∧ now < t + secondsPerDay) := by
  simp [onVacationAt]

/-- One draw from the member ring of `nextRandomMember` (main.go:240-242):
the ring built at main.go:227-231 holds the pool in order, so the value at
abstract cursor `c` is the pool entry at position `c` modulo the pool size,
and the cursor then advances by one (`membersRing = membersRing.Next()`).
On the empty pool `ring.New(0)` yields a nil ring whose dereference panics;
that outcome is embedded as `none`. -/
def nextFromRing (pool : List User) (cursor : Nat) : Option User × Nat :=
  (pool[cursor % pool.length]?, cursor + 1)

/-- Member produced by the draw at cursor `c` (first component of
`nextFromRing`). -/
def ringDraw (pool : List User) (c : Nat) : Option User :=
  (nextFromRing pool c).1

/-- C2 (confirmed): with a non-empty pool and no exclusions, the pool-size
many consecutive draws starting at any cursor are a permutation of the pool
(each member returned exactly once per cycle), and the draw sequence is
periodic with period equal to the pool size, so the cycle repeats
indefinitely. -/
theorem ring_roundRobin (pool : List User) (h : pool ≠ []) (k : Nat) :
    List.Perm ((List.range pool.length).map fun i => ringDraw pool (k + i))
      (pool.map some) ∧
    ringDraw pool (k + pool.length) = ringDraw pool k := by
  constructor
  · have heq : ((List.range pool.length).map fun i => ringDraw pool (k + i))
        = (pool.rotate k).map some := by
      apply List.ext_getElem
      · simp
      · intro n h1 h2
        have hn : n < pool.length := by simpa using h1
        have hlt : (k + n) % pool.length < pool.length :=
          Nat.mod_lt _ (List.length_pos.mpr h)
        simp [ringDraw, nextFromRing, List.getElem_rotate,
          List.getElem?_eq_getElem hlt, Nat.add_comm k n]
    rw [heq]
    exact (pool.rotate_perm k).map some
  · simp [ringDraw, nextFromRing, Nat.add_mod_right]

/-- Witness for `ring_roundRobin` at a concrete three-member pool and
cursor 4. -/
theorem ring_roundRobin_witness :
    ([User.mk 1 "a", User.mk 2 "b", User.mk 3 "c"] ≠ ([] : List User)) ∧
    (List.Perm
      ((List.range ([User.mk 1 "a", User.mk 2 "b", User.mk 3 "c"] : List User).length).map
        fun i => ringDraw [User.mk 1 "a", User.mk 2 "b", User.mk 3 "c"] (4 + i))
      (([User.mk 1 "a", User.mk 2 "b", User.mk 3 "c"] : List User).map some) ∧
     ringDraw [User.mk 1 "a", User.mk 2 "b", User.mk 3 "c"]
        (4 + ([User.mk 1 "a", User.mk 2 "b", User.mk 3 "c"] : List User).length)
      = ringDraw [User.mk 1 "a", User.mk 2 "b", User.mk 3 "c"] 4) :=
  ⟨by decide, ring_roundRobin [User.mk 1 "a", User.mk 2 "b", User.mk 3 "c"] (by decide) 4⟩

/-- Acceptance test of the selection loop in `main` (main.go:370):
`user.ID != issue.User.ID && user.Login != botName`. -/
def acceptable (u : User) (authorID : Int) : Bool :=
  (u.id != authorID) && (u.login != botName)

/-- A draw is acceptable exactly when its id differs from the author's id
and its login differs from the bot's login. -/
theorem acceptable_eq_true_iff (u : User) (authorID : Int) :
    acceptable u authorID = true ↔ (u.id ≠ authorID ∧ u.login ≠ botName) := by
  simp [acceptable]

/-- The selection loop of `main` (main.go:367-373): draw from the ring until
the draw passes `acceptable`.  Draws are periodic with period `pool.length`,
so the loop accepts iff it accepts within one full cycle; `none` embeds the
runs in which the loop never accepts a candidate. -/
def selectLoop (pool : List User) (start : Nat) (authorID : Int) : Option User :=
  (List.range pool.length).findSome? fun i =>
    match ringDraw pool (start + i) with
    | some u => if acceptable u authorID then some u else none
    | none => none

/-- The cursor offset that makes the draw starting at `start` land on pool
position `j`: `(start + hitIndex N start j) % N = j` for `j < N`. -/
def hitIndex (N start j : Nat) : Nat :=
  (j + N - start % N) % N

/-- Arithmetic of `hitIndex`: the draw at offset `hitIndex` lands on `j`. -/
theorem hitIndex_spec (N start j : Nat) (hN : 0 < N) (hj : j < N) :
    hitIndex N start j < N ∧ (start + hitIndex N start j) % N = j := by
  refine ⟨Nat.mod_lt _ hN, ?_⟩
  unfold hitIndex
  have hs : start % N < N := Nat.mod_lt _ hN
  have hle : start % N ≤ start := Nat.mod_le _ _
  have hdm := Nat.div_add_mod start N
  rw [Nat.add_mod_mod]
  have h2 : start + (j + N - start % N) = N * (start / N) + (j + N) := by omega
  rw [h2, Nat.mul_add_mod, Nat.add_mod_right]
  exact Nat.mod_eq_of_lt hj

/-- C3 (confirmed): whenever the pool contains a member that is neither the
author (by id) nor the bot (by login), the selection loop terminates with
some candidate, and that candidate is never the excluded author nor the
bot. -/
theorem selectLoop_never_author_or_bot (pool : List User) (start : Nat)
    (authorID : Int) (h : ∃ u ∈ pool, u.id ≠ authorID ∧ u.login ≠ botName) :
    ∃ w, selectLoop pool start authorID = some w ∧
      w.id ≠ authorID ∧ w.login ≠ botName := by
  obtain ⟨u, hu, hid, hlogin⟩ := h
  obtain ⟨j, hj, hjget⟩ := List.getElem_of_mem hu
  have hN : 0 < pool.length := List.length_pos.mpr (List.ne_nil_of_mem hu)
  obtain ⟨hiN, hmod⟩ := hitIndex_spec pool.length start j hN hj
  have hacc : acceptable u authorID = true :=
    (acceptable_eq_true_iff u authorID).mpr ⟨hid, hlogin⟩
  have hdraw : ringDraw pool (start + hitIndex pool.length start j) = some u := by
    unfold ringDraw nextFromRing
    rw [hmod]
    rw [List.getElem?_eq_getElem hj, hjget]
  have hsome : ∃ b, selectLoop pool start authorID = some b := by
    rw [← Option.isSome_iff_exists]
    unfold selectLoop
    apply List.findSome?_isSome_iff.mpr
    refine ⟨hitIndex pool.length start j, List.mem_range.mpr hiN, ?_⟩
    rw [hdraw]
    simp [hacc]
  obtain ⟨b, hb⟩ := hsome
  have hext := List.exists_of_findSome?_eq_some (hb ▸ rfl :
    (List.range pool.length).findSome? (fun i =>
      match ringDraw pool (start + i) with
      | some u => if acceptable u authorID then some u else none
      | none => none) = some b)
  obtain ⟨a, _, hfa⟩ := hext
  refine ⟨b, hb, ?_⟩
  rcases hd : ringDraw pool (start + a) with _ | v
  · rw [hd] at hfa
    simp at hfa
  · rw [hd] at hfa
    by_cases hv : acceptable v authorID = true
    · simp [hv] at hfa
      subst hfa
      exact (acceptable_eq_true_iff v authorID).mp hv
    · simp [hv] at hfa

/-- Witness for `selectLoop_never_author_or_bot`: author id 2, pool holding
the author and one other member. -/
theorem selectLoop_never_author_or_bot_witness :
    (∃ u ∈ [User.mk 2 "carol", User.mk 5 "alice"],
      u.id ≠ (2 : Int) ∧ u.login ≠ botName) ∧
    (∃ w, selectLoop [User.mk 2 "carol", User.mk 5 "alice"] 7 2 = some w ∧
      w.id ≠ (2 : Int) ∧ w.login ≠ botName) :=
  ⟨by decide, selectLoop_never_author_or_bot [User.mk 2 "carol", User.mk 5 "alice"] 7 2 (by decide)⟩

/-- C6 (confirmed): when every pool member is the author (by id) or the bot
(by login) — in particular for the empty pool, whose draws produce no
member at all — no draw at any finite offset is ever accepted, so the
selection loop of `main` never breaks out: the loop model returns `none`
and every draw fails the acceptance test. -/
theorem selectLoop_starvation (pool : List User) (start : Nat) (authorID : Int)
    (h : ∀ u ∈ pool, u.id = authorID ∨ u.login = botName) :
    selectLoop pool start authorID = none ∧
    ∀ n u, ringDraw pool (start + n) = some u → acceptable u authorID = false := by
  have hdraw : ∀ n u, ringDraw pool (start + n) = some u →
      acceptable u authorID = false := by
    intro n u hu
    have hmem : u ∈ pool := List.getElem?_mem hu
    rcases h u hmem with h1 | h1 <;> simp [acceptable, h1]
  refine ⟨?_, hdraw⟩
  unfold selectLoop
  rw [List.findSome?_eq_none_iff]
  intro x _
  rcases hd : ringDraw pool (start + x) with _ | u
  · simp
  · simp [hdraw x u hd]

/-- Witness for `selectLoop_starvation`: the pool holding only the author
and the bot. -/
theorem selectLoop_starvation_witness :
    (∀ u ∈ [User.mk 2 "carol", User.mk 9 "optiopay-helper"],
      u.id = (2 : Int) ∨ u.login = botName) ∧
    selectLoop [User.mk 2 "carol", User.mk 9 "optiopay-helper"] 3 2 = none :=
  ⟨by decide,
    (selectLoop_starvation [User.mk 2 "carol", User.mk 9 "optiopay-helper"] 3 2 (by decide)).1⟩

/-- Go slice deletion step of the vacation loop in `listMembers`
(main.go:197-201).  The `range` loop iterates `key` over the roster's
original length; `st.1` is the shared backing array (its length never
changes) and `st.2` the current length of the `members` slice variable.
The iteration variable reads the backing array at `key`.  On a vacationing
entry the program runs `members = append(members[:key], members[key+1:]...)`:
when `key + 1` exceeds the current slice length, `members[key+1:]` is out of
range and the program panics (embedded as `none`); otherwise `append` copies
the elements at positions `key+1 .. L-1` one slot left in place, leaves the
positions from `L-1` on unchanged as stale residue, and the slice length
drops to `L - 1`. -/
def goRemoveStep (vac : List String) (st : List User × Nat) (key : Nat) :
    Option (List User × Nat) :=
  let user := st.1.getD key (User.mk 0 "")
  if vac.contains user.login then
    if key + 1 > st.2 then none
    else some ((st.1.take key) ++ ((st.1.drop (key + 1)).take (st.2 - 1 - key))
      ++ st.1.drop (st.2 - 1), st.2 - 1)
  else some st

/-- Vacation removal of `listMembers` (main.go:196-202): when at least one
vacation entry is active the program runs the deletion-during-iteration loop
above for the keys `0 .. len(members)-1`; the cached pool is the final live
slice (the first `L` entries of the backing array).  `none` embeds a runtime
panic. -/
def removeVacationers (vac : List String) (members0 : List User) :
    Option (List User) :=
  if vac.isEmpty then some members0
  else
    match (List.range members0.length).foldlM (goRemoveStep vac)
        (members0, members0.length) with
    | some st => some (st.1.take st.2)
    | none => none

/-- C4 (code bug): a roster with the two consecutive vacationing members `a`
and `b`.  Removing `a` shifts `b` into the slot the loop has already passed,
so the loop never examines `b` again and the cached pool retains the
vacationing member `b`; the claim (and the spec's stated intent) requires
the pool `[c]`. -/
theorem removeVacationers_retains_consecutive_vacationer :
    removeVacationers ["a", "b"] [User.mk 1 "a", User.mk 2 "b", User.mk 3 "c"]
      = some [User.mk 2 "b", User.mk 3 "c"] ∧
    (["a", "b"] : List String).contains "b" = true := by
  refine ⟨by decide, by decide⟩

/-- One call to `listMembers` (main.go:155-206), the roster fetch (together
with decode and vacation filtering) supplied as an explicit outcome.  The
cache argument is `none` when the Go global `membersCache` is nil
(unpopulated); a successful fetch stores its value in the cache — Go's nil
slice, embedded as `Except.ok none`, leaves it unpopulated.  The call
returns its result, the cache afterwards, and whether the fetch was
attempted. -/
def listMembersCall (cache : Option (List User))
    (fetch : Except String (Option (List User))) :
    Except String (Option (List User)) × Option (List User) × Bool :=
  match cache with
  | some l => (Except.ok (some l), some l, false)
  | none =>
    match fetch with
    | Except.error e => (Except.error e, none, true)
    | Except.ok v => (Except.ok v, v, true)

/-- Fetch-attempt flags of a sequence of `listMembers` calls, threading the
cache; the per-call fetch outcomes are supplied as a list. -/
def listMembersFetches (cache : Option (List User)) :
    List (Except String (Option (List User))) → List Bool
  | [] => []
  | f :: fs =>
    let r := listMembersCall cache f
    r.2.2 :: listMembersFetches r.2.1 fs

/-- C7 (confirmed): a populated cache is returned unchanged with no fetch —
so after one successful build every later call in the run is fetch-free —
while a fetch failure is surfaced to the caller and leaves the cache
unpopulated, and any call that sees an unpopulated cache attempts the fetch
(failure is not memoised). -/
theorem listMembers_fetch_at_most_once (l : List User)
    (f : Except String (Option (List User))) (e : String)
    (fs : List (Except String (Option (List User)))) :
    listMembersCall (some l) f = (Except.ok (some l), some l, false) ∧
    listMembersCall none (Except.error e) = (Except.error e, none, true) ∧
    (listMembersCall none f).2.2 = true ∧
    listMembersFetches (some l) fs = fs.map (fun _ => false) := by
  refine ⟨rfl, rfl, ?_, ?_⟩
  · cases f <;> rfl
  · induction fs with
    | nil => rfl
    | cons g gs ih => simp [listMembersFetches, listMembersCall, ih]

/-- One page response of the pagination loop in `stalePullRequests`
(main.go:87-103): the decoded issues plus the optional `rel="next"` locator
extracted from the `Link` header; `Except.error` embeds a failed fetch or
decode, which the Go code surfaces by aborting with the load error
(main.go:110), yielding no items. -/
abbrev PageResp := Except String (List Issue × Option String)

/-- Pagination loop of `stalePullRequests` (main.go:105-122): follow pages,
appending each page's issues to the accumulator, stopping at the first page
with no next locator; a page failure aborts with the error and discards the
accumulated items.  The responses the server would give are supplied as an
oracle sequence consumed in order (a run ends, by an error or an absent
locator, before a well-formed oracle is exhausted). -/
def fetchAllPages (responses : List PageResp) (acc : List Issue) :
    Except String (List Issue) :=
  match responses with
  | [] => Except.ok acc
  | r :: rest =>
    match r with
    | Except.error e => Except.error e
    | Except.ok (items, next) =>
      match next with
      | none => Except.ok (acc ++ items)
      | some _ => fetchAllPages rest (acc ++ items)

/-- Accumulator behaviour of `fetchAllPages` over successful pages that all
carry a next locator. -/
theorem fetchAllPages_goods (goods : List (List Issue × String))
    (tail : List PageResp) (acc : List Issue) :
    fetchAllPages ((goods.map fun g => Except.ok (g.1, some g.2)) ++ tail) acc
      = fetchAllPages tail (acc ++ (goods.map Prod.fst).flatten) := by
  induction goods generalizing acc with
  | nil => simp
  | cons g gs ih => simp [fetchAllPages, ih, List.append_assoc]

/-- C8 (confirmed): across any successful pages carrying next locators, the
fetch returns the concatenation of all pages' items in page order and stops
exactly at the first page without a locator (later responses are never
consumed); and if any page fails after such a prefix, the whole fetch
surfaces that error and none of the accumulated items are returned. -/
theorem fetchAllPages_spec (goods : List (List Issue × String))
    (lastItems : List Issue) (rest : List PageResp) (e : String) :
    fetchAllPages ((goods.map fun g => Except.ok (g.1, some g.2)) ++
        Except.ok (lastItems, (none : Option String)) :: rest) []
      = Except.ok ((goods.map Prod.fst).flatten ++ lastItems) ∧
    fetchAllPages ((goods.map fun g => Except.ok (g.1, some g.2)) ++
        Except.error e :: rest) []
      = Except.error e := by
  constructor
  · rw [fetchAllPages_goods]
    simp [fetchAllPages]
  · rw [fetchAllPages_goods]
    simp [fetchAllPages]

/-- Error discipline of `assignUser` (main.go:303-336): the repo-name
extraction and the PATCH response are supplied as outcomes, `patchResp`
carrying the HTTP status of the assignment write (200 is `http.StatusOK`).
After a successful write the acknowledgement comment is attempted, but its
outcome is only logged (main.go:332-334) and never changes the returned
result. -/
def assignUser (repoResult : Except String String)
    (patchResp : Except String Nat)
    (commentResp : Except String Unit) : Except String Unit :=
  match repoResult with
  | Except.error e => Except.error ("Cannot extract repo name from URL: " ++ e)
  | Except.ok _ =>
    match patchResp with
    | Except.error e => Except.error ("cannot do request: " ++ e)
    | Except.ok status =>
      if status ≠ 200 then Except.error "unexpected response"
      else
        match commentResp with
        | _ => Except.ok ()

/-- C9 (confirmed): whenever the assignment write succeeds (status 200, repo
name extracted), `assignUser` reports success for every comment outcome — a
comment failure is logged only and never propagated — and, more generally,
the returned result never depends on the comment outcome, so a comment
failure cannot undo a reported assignment. -/
theorem assignUser_comment_failure_not_fatal (repo : String)
    (c c₁ c₂ : Except String Unit) (rr : Except String String)
    (pr : Except String Nat) :
    assignUser (Except.ok repo) (Except.ok 200) c = Except.ok () ∧
    assignUser rr pr c₁ = assignUser rr pr c₂ := by
  refine ⟨rfl, ?_⟩
  cases rr <;> cases pr <;> cases c₁ <;> cases c₂ <;> simp [assignUser]

/-- Outcome of one Go call: a value, a returned error, or a runtime panic. -/
inductive GoResult (α : Type) where
  | ok : α → GoResult α
  | error : String → GoResult α
  | panicked : String → GoResult α
deriving DecidableEq

/-- `nextRandomMember` (main.go:218-243) with the ring state explicit: `st`
is the built ring with its cursor (`none` while the Go global `membersRing`
is nil), `fetch` the outcome of `listMembers`, and `skip` the random
starting offset drawn from `crypto/rand`.  On first use the members are
listed and the ring is built; with an empty member list, the call
`rand.Int(rand.Reader, big.NewInt(0))` at main.go:234 panics (its bound must
be positive) before any draw, and dereferencing the nil ring returned by
`ring.New(0)` would panic as well.  The error return only ever forwards a
`listMembers` failure (main.go:224-226). -/
def nextRandomMember (st : Option (List User × Nat))
    (fetch : Except String (Option (List User))) (skip : Nat) :
    GoResult User × Option (List User × Nat) :=
  match st with
  | some (pool, cur) =>
    match ringDraw pool cur with
    | some u => (GoResult.ok u, some (pool, cur + 1))
    | none => (GoResult.panicked "runtime error: invalid memory address or nil pointer dereference", some (pool, cur))
  | none =>
    match fetch with
    | Except.error e => (GoResult.error ("cannot list memebers: " ++ e), none)
    | Except.ok v =>
      let members := v.getD []
      if members.isEmpty then
        (GoResult.panicked "crypto/rand: argument to Int is <= 0", none)
      else
        match ringDraw members skip with
        | some u => (GoResult.ok u, some (members, skip + 1))
        | none => (GoResult.panicked "runtime error: invalid memory address or nil pointer dereference", some (members, skip))

/-- C10 (confirmed): with an unpopulated ring and an empty fetched pool
(whether the empty roster or Go's nil slice), the first draw panics at the
zero-bound random-offset call rather than returning through the error
result; and the error result never reports an empty pool — every error it
returns is the forwarded `listMembers` failure. -/
theorem nextRandomMember_empty_pool_panics
    (v : Option (List User)) (hv : v.getD [] = []) (skip : Nat) :
    (nextRandomMember none (Except.ok v) skip).1
      = GoResult.panicked "crypto/rand: argument to Int is <= 0" ∧
    ∀ st f s e, (nextRandomMember st f s).1 = GoResult.error e →
      ∃ e₂, f = Except.error e₂ ∧ e = "cannot list memebers: " ++ e₂ := by
  constructor
  · simp [nextRandomMember, hv]
  · intro st f s e h
    cases st with
    | some p =>
      obtain ⟨pool, cur⟩ := p
      rcases hd : ringDraw pool cur with _ | u <;>
        simp [nextRandomMember, hd] at h
    | none =>
      cases f with
      | error e₂ =>
        simp [nextRandomMember] at h
        exact ⟨e₂, rfl, h.symm⟩
      | ok v₂ =>
        by_cases hvE : (v₂.getD []).isEmpty
        · simp [nextRandomMember, hvE] at h
        · rcases hd : ringDraw (v₂.getD []) s with _ | u <;>
            simp [nextRandomMember, hvE, hd] at h

/-- Witness for `nextRandomMember_empty_pool_panics` at the empty roster. -/
theorem nextRandomMember_empty_pool_panics_witness :
    (nextRandomMember none (Except.ok (some ([] : List User))) 0).1
      = GoResult.panicked "crypto/rand: argument to Int is <= 0" :=
  (nextRandomMember_empty_pool_panics (some []) rfl 0).1
